import Mathlib

/-!
Verification of the highlight-reel segment pipeline of the `blogpost`
repository.  The core module (`src/highlight_reel_extractor.py`) is consumed
by the GUI (`src/examples/highlight_reel_gui.py`) and the Streamlit app
(`src/app.py`) but is not part of the checked-in sources; the parsing,
validation and assembly components below are therefore modelled from the
design document, while the GUI worker thread and the Streamlit clipper are
embedded directly from the code.  Text is modelled as lists of lines, a line
being a `List Char`; time values are natural numbers of seconds.
-/

deriving instance DecidableEq for Except

namespace Reel

/-! ### Decimal digits

Python renders numbers with `f"{n:02d}"`; we model the decimal expansion
with an explicit fuel argument so that every function reduces in the kernel. -/

def digitToChar (d : Nat) : Char := Char.ofNat (48 + d)

def charVal (c : Char) : Nat := c.toNat - 48

def natToDigitsAux : Nat → Nat → List Nat
  | 0, n => [n % 10]
  | fuel + 1, n => if n < 10 then [n] else natToDigitsAux fuel (n / 10) ++ [n % 10]

/-- Decimal digits of `n`, most significant first. -/
def natToDigits (n : Nat) : List Nat := natToDigitsAux n n

/-- Modelled from the spec: Python's `{:02d}` zero-pads to width two. -/
def pad2 (n : Nat) : List Nat := if n < 10 then 0 :: natToDigits n else natToDigits n

def pad2Chars (n : Nat) : List Char := (pad2 n).map digitToChar

/-! ### Time-code normalizer (parsing side)

Modelled from the spec: the `TimeCodeNormalizer` accepts `H:MM:SS`, `MM:SS`,
bare integer seconds, and the duration phrases `"<N> minutes"`,
`"<N> minute"` and `"<N>m<M>s"`, tolerating surrounding whitespace; its
implementation is missing from the repository (only its callers are
present). -/

def parseNatChars (cs : List Char) : Option Nat :=
  if cs = [] then none
  else if cs.all Char.isDigit then
    some (cs.foldl (fun a c => a * 10 + charVal c) 0)
  else none

def splitOnColon : List Char → List (List Char)
  | [] => [[]]
  | c :: cs =>
    let r := splitOnColon cs
    if c = ':' then [] :: r else (c :: r.headD []) :: r.tail

def trimChars (cs : List Char) : List Char :=
  ((cs.dropWhile Char.isWhitespace).reverse.dropWhile Char.isWhitespace).reverse

def combineTimeParts : List Nat → Option Nat
  | [h, m, s] => some (h * 3600 + m * 60 + s)
  | [m, s] => some (m * 60 + s)
  | [s] => some s
  | _ => none

def parseParts : List (List Char) → Option (List Nat)
  | [] => some []
  | p :: rest =>
    match parseNatChars p, parseParts rest with
    | some n, some ns => some (n :: ns)
    | _, _ => none

def dropSuffixQ (suf cs : List Char) : Option (List Char) :=
  if suf.isSuffixOf cs then some (cs.take (cs.length - suf.length)) else none

def parseMS (cs : List Char) : Option Nat :=
  let mins := cs.takeWhile (fun c => c ≠ 'm')
  match cs.dropWhile (fun c => c ≠ 'm') with
  | 'm' :: r =>
    match r.reverse with
    | 's' :: sr =>
      match parseNatChars (trimChars mins), parseNatChars (trimChars sr.reverse) with
      | some n, some m => some (n * 60 + m)
      | _, _ => none
    | _ => none
  | _ => none

def parseDurationPhrase (cs : List Char) : Option Nat :=
  match dropSuffixQ " minutes".data cs with
  | some pre => (parseNatChars (trimChars pre)).map (· * 60)
  | none =>
    match dropSuffixQ " minute".data cs with
    | some pre => (parseNatChars (trimChars pre)).map (· * 60)
    | none => parseMS cs

/-- Modelled from the spec: the `TimeCodeNormalizer` entry point. -/
def normalizeTime (cs : List Char) : Option Nat :=
  match parseParts (splitOnColon (trimChars cs)) with
  | some parts => combineTimeParts parts
  | none => parseDurationPhrase (trimChars cs)

/-! ### Time formatting (from `WorkerThread.run`, highlight_reel_gui.py:160)

The GUI logs a start time with
`f"{t // 3600:02d}:{(t % 3600) // 60:02d}:{t % 60:02d}"`. -/

def formatHMS (t : Nat) : List Char :=
  pad2Chars (t / 3600) ++ (':' :: (pad2Chars (t % 3600 / 60) ++ (':' :: pad2Chars (t % 60))))

/-! ### Data model

Modelled from the spec: `RawSegment` is produced by a segment extractor;
`ValidatedSegment` additionally carries the stable sequence index assigned
by the `SegmentValidator`. -/

structure RawSegment where
  title : String
  start : Nat
  duration : Nat
deriving DecidableEq

structure ValidatedSegment where
  title : String
  start : Nat
  duration : Nat
  index : Nat
deriving DecidableEq

/-! ### Segment validator

Modelled from the spec (§4.4): drop segments starting at or beyond the
source duration, clamp durations to the source duration (dropping segments
whose clamped duration is zero), assign stable indices in appearance order
and stable-sort by start with the index as tie-break. -/

def dropWarning (s : RawSegment) : String :=
  "segment beyond source length, dropped: " ++ s.title

def zeroDurWarning (s : RawSegment) : String :=
  "segment has zero duration after clamping, dropped: " ++ s.title

def clampWarning (s : RawSegment) : String :=
  "segment clamped to source length: " ++ s.title

def clampSegments : List RawSegment → Nat → List RawSegment × List String
  | [], _ => ([], [])
  | s :: rest, sd =>
    let r := clampSegments rest sd
    if sd ≤ s.start then (r.1, dropWarning s :: r.2)
    else if min s.duration (sd - s.start) = 0 then (r.1, zeroDurWarning s :: r.2)
    else if min s.duration (sd - s.start) < s.duration then
      (⟨s.title, s.start, min s.duration (sd - s.start)⟩ :: r.1, clampWarning s :: r.2)
    else (s :: r.1, r.2)

def indexFrom : Nat → List RawSegment → List ValidatedSegment
  | _, [] => []
  | i, s :: rest => ⟨s.title, s.start, s.duration, i⟩ :: indexFrom (i + 1) rest

/-- Sorting relation of the validator: ascending start, original index as
tie-break. -/
def planLE (a b : ValidatedSegment) : Prop :=
  a.start < b.start ∨ (a.start = b.start ∧ a.index ≤ b.index)

instance : DecidableRel planLE := fun a b => by
  unfold planLE; exact inferInstance

instance : IsTotal ValidatedSegment planLE :=
  ⟨fun a b => by unfold planLE; omega⟩

instance : IsTrans ValidatedSegment planLE :=
  ⟨fun a b c => by unfold planLE; omega⟩

def validateSegments (segs : List RawSegment) (sd : Nat) :
    List ValidatedSegment × List String :=
  (List.insertionSort planLE (indexFrom 0 (clampSegments segs sd).1),
   (clampSegments segs sd).2)

/-! ### Grammar detection

Modelled from the spec (§4.2): three mutually exclusive grammars tried in
the priority order Custom, Standard, Simple; the first structural match
wins, and a text matching none of the introducer patterns is
`UnrecognizedFormat`. -/

def stripEmphasis (cs : List Char) : List Char := cs.filter (fun c => c ≠ '*')

def dropPre (pre cs : List Char) : Option (List Char) :=
  if pre.isPrefixOf cs then some (cs.drop pre.length) else none

def splitOnMarker (marker : List Char) : List Char → Option (List Char × List Char)
  | [] => if marker.isPrefixOf [] then some ([], []) else none
  | c :: cs =>
    if marker.isPrefixOf (c :: cs) then some ([], (c :: cs).drop marker.length)
    else
      match splitOnMarker marker cs with
      | some (b, a) => some (c :: b, a)
      | none => none

def tsMarker : List Char := "STARTING TIMESTAMP:".data

def cdMarker : List Char := "CONTENT DESCRIPTION:".data

def segMarker : List Char := "SEGMENT:".data

def splitTrailingParen (cs : List Char) : Option (List Char × List Char) :=
  match cs.reverse with
  | ')' :: r =>
    match r.dropWhile (fun c => c ≠ '(') with
    | '(' :: beforeRev =>
      some (beforeRev.reverse, (r.takeWhile (fun c => c ≠ '(')).reverse)
    | _ => none
  | _ => none

def parseSegmentTitleLine (line : List Char) : Option (String × Option Nat) :=
  match dropPre "Segment ".data (trimChars line) with
  | none => none
  | some rest =>
    if rest.takeWhile Char.isDigit = [] then none
    else
      match rest.dropWhile Char.isDigit with
      | ':' :: titlePart =>
        match splitTrailingParen (trimChars titlePart) with
        | some (tit, durStr) => some ((trimChars tit).asString, normalizeTime durStr)
        | none => some ((trimChars titlePart).asString, none)
      | _ => none

def parseTimestampFromLine (line : List Char) : Option Nat :=
  match splitOnMarker tsMarker (stripEmphasis line) with
  | none => none
  | some (_, afterTs) =>
    match splitOnMarker cdMarker afterTs with
    | some (beforeCd, _) => normalizeTime beforeCd
    | none => normalizeTime afterTs

def customIntroPair (l1 l2 : List Char) : Bool :=
  (parseSegmentTitleLine l1).isSome &&
    ((splitOnMarker tsMarker (stripEmphasis l2)).isSome &&
     (splitOnMarker cdMarker (stripEmphasis l2)).isSome)

def hasCustomBlock : List (List Char) → Bool
  | l1 :: l2 :: rest => customIntroPair l1 l2 || hasCustomBlock (l2 :: rest)
  | _ => false

def standardIntroPair (l1 l2 : List Char) : Bool :=
  "####".data.isPrefixOf (trimChars l1) &&
    tsMarker.isPrefixOf (trimChars (stripEmphasis l2))

def hasStandardBlock : List (List Char) → Bool
  | l1 :: l2 :: rest => standardIntroPair l1 l2 || hasStandardBlock (l2 :: rest)
  | _ => false

def simpleIntro (line : List Char) : Bool := segMarker.isPrefixOf (trimChars line)

def hasSimpleBlock (lines : List (List Char)) : Bool := lines.any simpleIntro

inductive Grammar
  | custom
  | standard
  | simple
deriving DecidableEq

def detectGrammar (lines : List (List Char)) : Option Grammar :=
  if hasCustomBlock lines then some .custom
  else if hasStandardBlock lines then some .standard
  else if hasSimpleBlock lines then some .simple
  else none

/-! ### Segment extractors

Modelled from the spec (§4.3): one extractor per grammar, preserving
appearance order; a missing duration falls back to 60 seconds with a
warning; a Simple-format block missing a required line is skipped with a
warning. -/

def defaultDuration : Nat := 60

def fallbackWarning (tit : String) : String :=
  "no duration given, using default: " ++ tit

def mkSegment (tit : String) (start : Nat) (durOpt : Option Nat) :
    RawSegment × List String :=
  match durOpt with
  | some d => (⟨tit, start, d⟩, [])
  | none => (⟨tit, start, defaultDuration⟩, [fallbackWarning tit])

def extractCustom : List (List Char) → List RawSegment × List String
  | l1 :: l2 :: rest =>
    match parseSegmentTitleLine l1, parseTimestampFromLine l2 with
    | some (tit, durOpt), some start =>
      let s := mkSegment tit start durOpt
      let r := extractCustom rest
      (s.1 :: r.1, s.2 ++ r.2)
    | _, _ => extractCustom (l2 :: rest)
  | _ => ([], [])

def parseHeadingLine (line : List Char) : Option (String × Option Nat) :=
  match dropPre "####".data (trimChars line) with
  | none => none
  | some rest =>
    match splitTrailingParen (trimChars rest) with
    | some (tit, durStr) => some ((trimChars tit).asString, normalizeTime durStr)
    | none => some ((trimChars rest).asString, none)

def extractStandard : List (List Char) → List RawSegment × List String
  | l1 :: l2 :: rest =>
    match parseHeadingLine l1, parseTimestampFromLine l2 with
    | some (tit, durOpt), some start =>
      let s := mkSegment tit start durOpt
      let r := extractStandard rest
      (s.1 :: r.1, s.2 ++ r.2)
    | _, _ => extractStandard (l2 :: rest)
  | _ => ([], [])

def labelValue (label line : List Char) : Option (List Char) :=
  dropPre label (trimChars line)

def findLabel (label : List Char) : List (List Char) → Option (List Char)
  | [] => none
  | l :: rest =>
    match labelValue label l with
    | some v => some v
    | none => findLabel label rest

structure SimpleBlock where
  title : String
  body : List (List Char)
deriving DecidableEq

def scanSimple : List (List Char) → Option (String × List (List Char)) → List SimpleBlock
  | [], none => []
  | [], some (t, body) => [⟨t, body.reverse⟩]
  | l :: rest, cur =>
    match labelValue segMarker l with
    | some titChars =>
      match cur with
      | none => scanSimple rest (some ((trimChars titChars).asString, []))
      | some (t, body) =>
        ⟨t, body.reverse⟩ :: scanSimple rest (some ((trimChars titChars).asString, []))
    | none =>
      match cur with
      | none => scanSimple rest none
      | some (t, body) => scanSimple rest (some (t, l :: body))

def splitSimpleBlocks (lines : List (List Char)) : List SimpleBlock :=
  scanSimple lines none

def missingLineWarning (tit : String) : String :=
  "block missing required line, skipped: " ++ tit

def badTimeWarning (tit : String) : String :=
  "invalid time syntax in block, skipped: " ++ tit

def processSimpleBlock (b : SimpleBlock) : Except String RawSegment :=
  match findLabel "TIME:".data b.body, findLabel "DURATION:".data b.body with
  | some tv, some dv =>
    match normalizeTime tv, normalizeTime dv with
    | some t, some d => .ok ⟨b.title, t, d⟩
    | _, _ => .error (badTimeWarning b.title)
  | _, _ => .error (missingLineWarning b.title)

def collectBlocks : List SimpleBlock → List RawSegment × List String
  | [] => ([], [])
  | b :: rest =>
    let r := collectBlocks rest
    match processSimpleBlock b with
    | .ok s => (s :: r.1, r.2)
    | .error w => (r.1, w :: r.2)

def extractSimple (lines : List (List Char)) : List RawSegment × List String :=
  collectBlocks (splitSimpleBlocks lines)

def extractFor : Grammar → List (List Char) → List RawSegment × List String
  | .custom => extractCustom
  | .standard => extractStandard
  | .simple => extractSimple

/-! ### Pipeline

Modelled from the spec (§4.7, §7): detection, extraction and validation run
before any media work; an empty validated plan is the fatal
`NoValidSegments`, distinct from `UnrecognizedFormat`.  The media stages are
abstract functions, and the run records how often each was invoked. -/

inductive ReelError
  | unrecognizedFormat
  | noValidSegments
  | extractionFailed (msg : String)
  | assemblyFailed (msg : String)
deriving DecidableEq

def parseSpec (lines : List (List Char)) :
    Except ReelError (List RawSegment × List String) :=
  match detectGrammar lines with
  | none => .error .unrecognizedFormat
  | some g => .ok (extractFor g lines)

structure PipelineRun where
  result : Except ReelError String
  warnings : List String
  cutCalls : Nat
  assembleCalls : Nat
deriving DecidableEq

def cutAll (cut : ValidatedSegment → Except String String) :
    List ValidatedSegment → Except String (List String) × Nat
  | [] => (.ok [], 0)
  | v :: rest =>
    match cut v with
    | .error e => (.error e, 1)
    | .ok c =>
      let r := cutAll cut rest
      ((r.1).map (c :: ·), r.2 + 1)

def runFull (lines : List (List Char)) (sd : Nat)
    (cut : ValidatedSegment → Except String String)
    (assemble : List String → Except String String) : PipelineRun :=
  match parseSpec lines with
  | .error e => ⟨.error e, [], 0, 0⟩
  | .ok (raw, ws) =>
    let plan := (validateSegments raw sd).1
    let ws2 := (validateSegments raw sd).2
    if plan = [] then ⟨.error .noValidSegments, ws ++ ws2, 0, 0⟩
    else
      let c := cutAll cut plan
      match c.1 with
      | .error e => ⟨.error (.extractionFailed e), ws ++ ws2, c.2, 0⟩
      | .ok clips =>
        match assemble clips with
        | .error e => ⟨.error (.assemblyFailed e), ws ++ ws2, c.2, 1⟩
        | .ok out => ⟨.ok out, ws ++ ws2, c.2, 1⟩

/-! ### Worker thread (from `WorkerThread.run`, highlight_reel_gui.py:141-178)

The worker extracts segments, emits `finished(False, "No valid segments
found.")` on an empty result without creating the reel, emits
`finished(True, output)` on success, and any raised exception is caught and
reported as `finished(False, str(e))`. -/

structure VideoSegment where
  title : String
  start_time : Nat
  duration : Nat
deriving DecidableEq

structure WorkerRun where
  finished : List (Bool × String)
  createCalled : Bool
deriving DecidableEq

def noValidMsg : String := "No valid segments found."

def workerRun (extractResult : Except String (List VideoSegment))
    (create : List VideoSegment → Except String String) : WorkerRun :=
  match extractResult with
  | .error e => ⟨[(false, e)], false⟩
  | .ok segs =>
    if segs.isEmpty then ⟨[(false, noValidMsg)], false⟩
    else
      match create segs with
      | .ok out => ⟨[(true, out)], true⟩
      | .error e => ⟨[(false, e)], true⟩

/-! ### Streamlit Video Clipper (from app.py:418-421, 435)

`duration_sec` is a number input with `min_value=1 if duration_min == 0 else
0` and `max_value=59`; the duration passed to `extract_video_clip` is
`duration_min * 60 + duration_sec`. -/

def clipperSecMin (durationMin : Nat) : Nat := if durationMin = 0 then 1 else 0

def clipperAccepted (durationMin durationSec : Nat) : Bool :=
  decide (clipperSecMin durationMin ≤ durationSec) && decide (durationSec ≤ 59)

def clipDuration (durationMin durationSec : Nat) : Nat :=
  durationMin * 60 + durationSec

/-! ### Example documents (spec §6 and §8 fixtures) -/

def customExample : List (List Char) :=
  ["Segment 1: Opening Hook (01:30)".data,
   "**STARTING TIMESTAMP:** 00:16:30 **CONTENT DESCRIPTION:** ...".data]

def simpleTwoBlockExample : List (List Char) :=
  ["SEGMENT: Opening Segment".data,
   "TIME: 00:01:30".data,
   "DURATION: 2 minutes".data,
   "SEGMENT: Main Segment".data,
   "TIME: 00:15:45".data]

def emptyPlanExample : List (List Char) :=
  ["SEGMENT: Late Segment".data,
   "TIME: 00:10:00".data,
   "DURATION: 1 minute".data]

/-! ## Theorems -/

theorem natToDigitsAux_spec (fuel : Nat) : ∀ n : Nat, n ≤ fuel →
    (∀ d ∈ natToDigitsAux fuel n, d < 10) ∧ natToDigitsAux fuel n ≠ [] ∧
    ∀ a : Nat, (natToDigitsAux fuel n).foldl (fun x d => x * 10 + d) a =
      a * 10 ^ (natToDigitsAux fuel n).length + n := by
  induction fuel with
  | zero =>
    intro n hn
    have hn0 : n = 0 := Nat.le_zero.mp hn
    subst hn0
    refine ⟨by intro d hd; simp [natToDigitsAux] at hd; omega, by simp [natToDigitsAux], ?_⟩
    intro a
    simp [natToDigitsAux]
  | succ fuel ih =>
    intro n hn
    by_cases hlt : n < 10
    · refine ⟨by intro d hd; simp [natToDigitsAux, hlt] at hd; omega,
        by simp [natToDigitsAux, hlt], ?_⟩
      intro a
      simp [natToDigitsAux, hlt]
    · have hrec : n / 10 ≤ fuel := by omega
      obtain ⟨hmem, hne, hfold⟩ := ih (n / 10) hrec
      refine ⟨?_, ?_, ?_⟩
      · intro d hd
        simp only [natToDigitsAux, if_neg hlt, List.mem_append, List.mem_singleton] at hd
        rcases hd with hd | hd
        · exact hmem d hd
        · omega
      · simp [natToDigitsAux, hlt]
      · intro a
        simp only [natToDigitsAux, if_neg hlt, List.foldl_append, List.foldl_cons,
          List.foldl_nil, List.length_append, List.length_cons, List.length_nil]
        rw [hfold a]
        have h10 : 10 * (n / 10) + n % 10 = n := by omega
        have hpow : a * 10 ^ ((natToDigitsAux fuel (n / 10)).length + (0 + 1)) =
            (a * 10 ^ (natToDigitsAux fuel (n / 10)).length) * 10 := by
          rw [pow_succ]; ring
        omega

theorem natToDigits_lt (n : Nat) : ∀ d ∈ natToDigits n, d < 10 :=
  (natToDigitsAux_spec n n le_rfl).1

theorem natToDigits_foldl (n : Nat) :
    (natToDigits n).foldl (fun x d => x * 10 + d) 0 = n := by
  have h := (natToDigitsAux_spec n n le_rfl).2.2 0
  simpa [natToDigits] using h

theorem natToDigits_ne_nil (n : Nat) : natToDigits n ≠ [] :=
  (natToDigitsAux_spec n n le_rfl).2.1

theorem pad2_lt (n : Nat) : ∀ d ∈ pad2 n, d < 10 := by
  intro d hd
  unfold pad2 at hd
  by_cases h : n < 10 <;> simp [h] at hd
  · rcases hd with hd | hd
    · omega
    · exact natToDigits_lt n d hd
  · exact natToDigits_lt n d hd

theorem pad2_ne_nil (n : Nat) : pad2 n ≠ [] := by
  unfold pad2
  by_cases h : n < 10 <;> simp [h]
  exact natToDigits_ne_nil n

theorem pad2_foldl (n : Nat) :
    (pad2 n).foldl (fun x d => x * 10 + d) 0 = n := by
  unfold pad2
  by_cases h : n < 10 <;> simp [h]
  · simpa using natToDigits_foldl n
  · exact natToDigits_foldl n

theorem digitToChar_spec (d : Nat) (h : d < 10) :
    (digitToChar d).isDigit = true ∧ charVal (digitToChar d) = d ∧
    digitToChar d ≠ ':' ∧ (digitToChar d).isWhitespace = false := by
  interval_cases d <;> exact ⟨by decide, by decide, by decide, by decide⟩

theorem pad2Chars_props (n : Nat) : ∀ c ∈ pad2Chars n,
    c.isDigit = true ∧ c ≠ ':' ∧ c.isWhitespace = false := by
  intro c hc
  obtain ⟨d, hd, rfl⟩ := List.mem_map.mp hc
  obtain ⟨h1, _, h3, h4⟩ := digitToChar_spec d (pad2_lt n d hd)
  exact ⟨h1, h3, h4⟩

theorem foldl_charVal (l : List Nat) (h : ∀ d ∈ l, d < 10) :
    ∀ a : Nat, l.foldl (fun x d => x * 10 + charVal (digitToChar d)) a =
      l.foldl (fun x d => x * 10 + d) a := by
  induction l with
  | nil => intro a; rfl
  | cons d rest ih =>
    intro a
    have hd : d < 10 := h d (List.mem_cons_self d rest)
    have hv : charVal (digitToChar d) = d := (digitToChar_spec d hd).2.1
    simp only [List.foldl_cons, hv]
    exact ih (fun x hx => h x (List.mem_cons_of_mem d hx)) _

theorem parse_pad2 (n : Nat) : parseNatChars (pad2Chars n) = some n := by
  have hne : pad2Chars n ≠ [] := by
    unfold pad2Chars
    intro h
    exact pad2_ne_nil n (List.map_eq_nil_iff.mp h)
  have hall : (pad2Chars n).all Char.isDigit = true := by
    rw [List.all_eq_true]
    intro c hc
    exact (pad2Chars_props n c hc).1
  unfold parseNatChars
  rw [if_neg hne, if_pos hall]
  unfold pad2Chars
  rw [List.foldl_map]
  rw [foldl_charVal (pad2 n) (pad2_lt n) 0]
  rw [pad2_foldl]

theorem dropWhile_of_none (p : Char → Bool) (l : List Char)
    (h : ∀ c ∈ l, p c = false) : l.dropWhile p = l := by
  cases l with
  | nil => rfl
  | cons c rest =>
    rw [List.dropWhile_cons]
    simp [h c (List.mem_cons_self c rest)]

theorem trimChars_of_no_ws (l : List Char)
    (h : ∀ c ∈ l, c.isWhitespace = false) : trimChars l = l := by
  unfold trimChars
  rw [dropWhile_of_none _ l h]
  rw [dropWhile_of_none _ l.reverse (fun c hc => h c (List.mem_reverse.mp hc))]
  exact List.reverse_reverse l

theorem splitOnColon_cons (c : Char) (cs : List Char) :
    splitOnColon (c :: cs) =
      if c = ':' then [] :: splitOnColon cs
      else (c :: (splitOnColon cs).headD []) :: (splitOnColon cs).tail := rfl

theorem splitOnColon_no_colon (cs : List Char)
    (h : ∀ c ∈ cs, c ≠ ':') : splitOnColon cs = [cs] := by
  induction cs with
  | nil => rfl
  | cons c rest ih =>
    have hrest : splitOnColon rest = [rest] :=
      ih (fun x hx => h x (List.mem_cons_of_mem c hx))
    have hc : c ≠ ':' := h c (List.mem_cons_self c rest)
    rw [splitOnColon_cons, hrest, if_neg hc]
    rfl

theorem splitOnColon_append (a b : List Char)
    (h : ∀ c ∈ a, c ≠ ':') :
    splitOnColon (a ++ ':' :: b) = a :: splitOnColon b := by
  induction a with
  | nil =>
    simp only [List.nil_append]
    rw [splitOnColon_cons, if_pos rfl]
  | cons c rest ih =>
    have hrest := ih (fun x hx => h x (List.mem_cons_of_mem c hx))
    have hc : c ≠ ':' := h c (List.mem_cons_self c rest)
    simp only [List.cons_append]
    rw [splitOnColon_cons, hrest, if_neg hc]
    rfl

/-- C5 supporting fact: formatted `H:MM:SS` text splits back into its three
fields. -/
theorem splitOnColon_formatHMS (t : Nat) :
    splitOnColon (formatHMS t) =
      [pad2Chars (t / 3600), pad2Chars (t % 3600 / 60), pad2Chars (t % 60)] := by
  unfold formatHMS
  rw [splitOnColon_append _ _ (fun c hc => (pad2Chars_props _ c hc).2.1)]
  rw [splitOnColon_append _ _ (fun c hc => (pad2Chars_props _ c hc).2.1)]
  rw [splitOnColon_no_colon _ (fun c hc => (pad2Chars_props _ c hc).2.1)]

theorem formatHMS_no_ws (t : Nat) :
    ∀ c ∈ formatHMS t, c.isWhitespace = false := by
  intro c hc
  unfold formatHMS at hc
  simp only [List.mem_append, List.mem_cons] at hc
  rcases hc with hc | hc | hc | hc | hc
  · exact (pad2Chars_props _ c hc).2.2
  · subst hc; decide
  · exact (pad2Chars_props _ c hc).2.2
  · subst hc; decide
  · exact (pad2Chars_props _ c hc).2.2

/-- Claim C5: for every `TimeValue` `t` (a non-negative count of seconds),
formatting `t` as `H:MM:SS` (as `WorkerThread.run` does) and re-parsing the
result with the `TimeCodeNormalizer` yields `t` exactly. -/
theorem time_value_roundtrip (t : Nat) :
    normalizeTime (formatHMS t) = some t := by
  unfold normalizeTime
  rw [trimChars_of_no_ws _ (formatHMS_no_ws t)]
  rw [splitOnColon_formatHMS]
  simp only [parseParts, parse_pad2]
  simp only [combineTimeParts]
  have : t / 3600 * 3600 + t % 3600 / 60 * 60 + t % 60 = t := by omega
  rw [this]

/-! ### Validator lemmas -/

theorem planLE_start {a b : ValidatedSegment} (h : planLE a b) :
    a.start ≤ b.start := by
  unfold planLE at h
  omega

theorem clampSegments_bound (segs : List RawSegment) (sd : Nat) :
    ∀ s ∈ (clampSegments segs sd).1, s.start + s.duration ≤ sd ∧ 0 < s.duration := by
  induction segs with
  | nil => intro s hs; simp [clampSegments] at hs
  | cons a rest ih =>
    intro s hs
    simp only [clampSegments] at hs
    by_cases h1 : sd ≤ a.start
    · rw [if_pos h1] at hs
      exact ih s hs
    · rw [if_neg h1] at hs
      by_cases h2 : min a.duration (sd - a.start) = 0
      · rw [if_pos h2] at hs
        exact ih s hs
      · rw [if_neg h2] at hs
        by_cases h3 : min a.duration (sd - a.start) < a.duration
        · rw [if_pos h3] at hs
          rcases List.mem_cons.mp hs with rfl | hs
          · refine ⟨?_, ?_⟩ <;> simp <;> omega
          · exact ih s hs
        · rw [if_neg h3] at hs
          rcases List.mem_cons.mp hs with rfl | hs
          · omega
          · exact ih s hs

theorem indexFrom_mem (l : List RawSegment) :
    ∀ (i : Nat) (v : ValidatedSegment), v ∈ indexFrom i l →
      ∃ s ∈ l, v.start = s.start ∧ v.duration = s.duration := by
  induction l with
  | nil => intro i v hv; simp [indexFrom] at hv
  | cons a rest ih =>
    intro i v hv
    simp only [indexFrom, List.mem_cons] at hv
    rcases hv with rfl | hv
    · exact ⟨a, List.mem_cons_self a rest, rfl, rfl⟩
    · obtain ⟨s, hs, h⟩ := ih (i + 1) v hv
      exact ⟨s, List.mem_cons_of_mem a hs, h⟩

theorem indexFrom_get (l : List RawSegment) :
    ∀ (i k : Nat) (h : k < (indexFrom i l).length),
      ((indexFrom i l).get ⟨k, h⟩).index = i + k := by
  induction l with
  | nil => intro i k h; simp [indexFrom] at h
  | cons a rest ih =>
    intro i k h
    cases k with
    | zero => rfl
    | succ k =>
      have h2 : k < (indexFrom (i + 1) rest).length := by
        simp only [indexFrom, List.length_cons] at h
        omega
      have := ih (i + 1) k h2
      simp only [indexFrom, List.get_cons_succ]
      rw [this]
      omega

theorem indexFrom_index_ge (l : List RawSegment) :
    ∀ (i : Nat) (v : ValidatedSegment), v ∈ indexFrom i l → i ≤ v.index := by
  induction l with
  | nil => intro i v hv; simp [indexFrom] at hv
  | cons a rest ih =>
    intro i v hv
    simp only [indexFrom, List.mem_cons] at hv
    rcases hv with rfl | hv
    · exact le_rfl
    · exact Nat.le_of_succ_le (ih (i + 1) v hv)

theorem indexFrom_nodup (l : List RawSegment) :
    ∀ i : Nat, ((indexFrom i l).map (fun v => v.index)).Nodup := by
  induction l with
  | nil => intro i; simp [indexFrom]
  | cons a rest ih =>
    intro i
    simp only [indexFrom, List.map_cons, List.nodup_cons]
    refine ⟨?_, ih (i + 1)⟩
    intro hmem
    obtain ⟨v, hv, hvi⟩ := List.mem_map.mp hmem
    have := indexFrom_index_ge rest (i + 1) v hv
    omega

/-- Claim C1: for every input `RawSegment` sequence and every
`sourceDuration`, the Reel Plan produced by `SegmentValidator` is sorted
ascending by `start`, and every element satisfies
`start + duration ≤ sourceDuration`. -/
theorem reel_plan_invariants (segs : List RawSegment) (sd : Nat) :
    List.Sorted (fun a b : ValidatedSegment => a.start ≤ b.start)
      (validateSegments segs sd).1 ∧
    ∀ v ∈ (validateSegments segs sd).1, v.start + v.duration ≤ sd := by
  constructor
  · have h : List.Pairwise planLE
        (List.insertionSort planLE (indexFrom 0 (clampSegments segs sd).1)) :=
      List.sorted_insertionSort planLE (indexFrom 0 (clampSegments segs sd).1)
    exact List.Pairwise.imp (fun hab => planLE_start hab) h
  · intro v hv
    have hv2 : v ∈ indexFrom 0 (clampSegments segs sd).1 :=
      (List.mem_insertionSort planLE).mp hv
    obtain ⟨s, hs, hstart, hdur⟩ := indexFrom_mem _ 0 v hv2
    have hb := clampSegments_bound segs sd s hs
    omega

/-- Claim C8: the validator assigns each surviving segment its index in
original appearance order and stable-sorts by `start` with the index as
tie-break, so equal-`start` segments keep their input order in the plan. -/
theorem validator_stable_tiebreak (segs : List RawSegment) (sd : Nat) :
    ((validateSegments segs sd).1).Perm (indexFrom 0 (clampSegments segs sd).1) ∧
    (∀ (k : Nat) (h : k < (indexFrom 0 (clampSegments segs sd).1).length),
      ((indexFrom 0 (clampSegments segs sd).1).get ⟨k, h⟩).index = k) ∧
    ∀ (i j : Nat) (hi : i < ((validateSegments segs sd).1).length)
      (hj : j < ((validateSegments segs sd).1).length), i < j →
      (((validateSegments segs sd).1).get ⟨i, hi⟩).start =
        (((validateSegments segs sd).1).get ⟨j, hj⟩).start →
      (((validateSegments segs sd).1).get ⟨i, hi⟩).index <
        (((validateSegments segs sd).1).get ⟨j, hj⟩).index := by
  have hperm : ((validateSegments segs sd).1).Perm
      (indexFrom 0 (clampSegments segs sd).1) :=
    List.perm_insertionSort planLE _
  refine ⟨hperm, ?_, ?_⟩
  · intro k h
    have := indexFrom_get (clampSegments segs sd).1 0 k h
    omega
  · intro i j hi hj hij hstart
    have hsorted : List.Pairwise planLE (validateSegments segs sd).1 :=
      List.sorted_insertionSort planLE _
    have hle := List.pairwise_iff_get.mp hsorted ⟨i, hi⟩ ⟨j, hj⟩ hij
    have hnodup : (((validateSegments segs sd).1).map (fun v => v.index)).Nodup :=
      ((hperm.map (fun v => v.index)).nodup_iff).mpr
        (indexFrom_nodup (clampSegments segs sd).1 0)
    have hpw : List.Pairwise (fun a b : ValidatedSegment => a.index ≠ b.index)
        (validateSegments segs sd).1 := List.pairwise_map.mp hnodup
    have hne := List.pairwise_iff_get.mp hpw ⟨i, hi⟩ ⟨j, hj⟩ hij
    unfold planLE at hle
    omega

/-- Claim C8 witness: two segments with equal `start` keep their input order
in the plan. -/
theorem validator_stable_tiebreak_witness :
    (((validateSegments [⟨"a", 5, 10⟩, ⟨"b", 5, 10⟩] 100).1.get ⟨0, by decide⟩).index <
     ((validateSegments [⟨"a", 5, 10⟩, ⟨"b", 5, 10⟩] 100).1.get ⟨1, by decide⟩).index) := by
  have h := validator_stable_tiebreak [⟨"a", 5, 10⟩, ⟨"b", 5, 10⟩] 100
  exact h.2.2 0 1 (by decide) (by decide) (by decide) (by decide)

/-- Claim C3: a segment with `start = 0` and
`duration = sourceDuration + 50` on a `sourceDuration = 100` source yields a
`ValidatedSegment` with `duration = 100` and exactly one warning. -/
theorem clamping_example :
    (validateSegments [⟨"clip", 0, 150⟩] 100).1 = [⟨"clip", 0, 100, 0⟩] ∧
    (validateSegments [⟨"clip", 0, 150⟩] 100).2.length = 1 := by
  constructor <;> rfl

/-- Claim C4: the normative Custom-format example of §6 extracts to exactly
one segment titled "Opening Hook" with start `16*60+30 = 990` seconds and
duration `90` seconds. -/
theorem custom_example_extraction :
    detectGrammar customExample = some Grammar.custom ∧
    extractCustom customExample = ([⟨"Opening Hook", 990, 90⟩], []) := by
  constructor <;> rfl

/-- Claim C2: the grammar detector tries Custom, Standard, Simple in that
fixed priority order, first structural match wins; with no match it reports
`UnrecognizedFormat` and the pipeline performs no extraction work. -/
theorem grammar_priority (lines : List (List Char)) :
    (hasCustomBlock lines = true → detectGrammar lines = some Grammar.custom) ∧
    (hasCustomBlock lines = false → hasStandardBlock lines = true →
      detectGrammar lines = some Grammar.standard) ∧
    (hasCustomBlock lines = false → hasStandardBlock lines = false →
      hasSimpleBlock lines = true → detectGrammar lines = some Grammar.simple) ∧
    (hasCustomBlock lines = false → hasStandardBlock lines = false →
      hasSimpleBlock lines = false →
      detectGrammar lines = none ∧
      parseSpec lines = Except.error ReelError.unrecognizedFormat ∧
      ∀ sd cut assemble, runFull lines sd cut assemble =
        ⟨Except.error ReelError.unrecognizedFormat, [], 0, 0⟩) := by
  refine ⟨?_, ?_, ?_, ?_⟩
  · intro h1
    simp [detectGrammar, h1]
  · intro h1 h2
    simp [detectGrammar, h1, h2]
  · intro h1 h2 h3
    simp [detectGrammar, h1, h2, h3]
  · intro h1 h2 h3
    have hd : detectGrammar lines = none := by simp [detectGrammar, h1, h2, h3]
    have hp : parseSpec lines = Except.error ReelError.unrecognizedFormat := by
      unfold parseSpec
      rw [hd]
    refine ⟨hd, hp, ?_⟩
    intro sd cut assemble
    unfold runFull
    rw [hp]

/-- Claim C2 witness: the empty text matches no grammar and aborts with
`UnrecognizedFormat`. -/
theorem grammar_priority_witness :
    detectGrammar ([] : List (List Char)) = none ∧
    parseSpec ([] : List (List Char)) = Except.error ReelError.unrecognizedFormat := by
  have h := grammar_priority []
  exact ⟨(h.2.2.2 rfl rfl rfl).1, (h.2.2.2 rfl rfl rfl).2.1⟩

/-- Claim C6: a Simple-format document with one well-formed block and one
block missing `DURATION:` yields a one-element plan plus exactly one
warning, not `UnrecognizedFormat`; in general a block missing a required
line is skipped with a warning while the remaining blocks are extracted. -/
theorem simple_missing_line_policy :
    detectGrammar simpleTwoBlockExample = some Grammar.simple ∧
    (extractSimple simpleTwoBlockExample).1 = [⟨"Opening Segment", 90, 120⟩] ∧
    (extractSimple simpleTwoBlockExample).2.length = 1 ∧
    (validateSegments (extractSimple simpleTwoBlockExample).1 3600).1.length = 1 ∧
    parseSpec simpleTwoBlockExample ≠ Except.error ReelError.unrecognizedFormat ∧
    ∀ bs : List SimpleBlock,
      (collectBlocks bs).1 = bs.filterMap (fun b => (processSimpleBlock b).toOption) ∧
      (collectBlocks bs).2.length =
        (bs.filter (fun b => !((processSimpleBlock b).toOption.isSome))).length := by
  refine ⟨rfl, rfl, rfl, rfl, by decide, ?_⟩
  intro bs
  induction bs with
  | nil => exact ⟨rfl, rfl⟩
  | cons b rest ih =>
    cases hpb : processSimpleBlock b with
    | ok s =>
      simp [collectBlocks, hpb, Except.toOption, ih.1, ih.2]
    | error w =>
      simp [collectBlocks, hpb, Except.toOption, ih.1, ih.2]

/-- Claim C7: when structural parsing succeeds but the validated plan is
empty, the pipeline fails with `NoValidSegments` (distinct from
`UnrecognizedFormat`) and neither clip extraction nor assembly is
attempted. -/
theorem empty_plan_is_no_valid_segments (lines : List (List Char)) (sd : Nat)
    (raw : List RawSegment) (ws : List String)
    (hparse : parseSpec lines = Except.ok (raw, ws))
    (hempty : (validateSegments raw sd).1 = []) :
    (∀ cut assemble, runFull lines sd cut assemble =
      ⟨Except.error ReelError.noValidSegments, ws ++ (validateSegments raw sd).2, 0, 0⟩) ∧
    ReelError.noValidSegments ≠ ReelError.unrecognizedFormat := by
  refine ⟨?_, by simp⟩
  intro cut assemble
  unfold runFull
  rw [hparse]
  simp [hempty]

/-- Claim C7 witness: a Simple document whose only segment starts beyond the
source duration validates to an empty plan and reports `NoValidSegments`
with no media work. -/
theorem empty_plan_is_no_valid_segments_witness :
    (runFull emptyPlanExample 100 (fun _ => Except.ok "clip")
      (fun _ => Except.ok "reel")).result = Except.error ReelError.noValidSegments := by
  have h := empty_plan_is_no_valid_segments emptyPlanExample 100
    [⟨"Late Segment", 600, 60⟩] [] rfl rfl
  rw [h.1 (fun _ => Except.ok "clip") (fun _ => Except.ok "reel")]

/-- Claim C9: in the Streamlit Video Clipper, every accepted
(`duration_min`, `duration_sec`) input yields a duration of at least one
second, the seconds field enforcing a minimum of 1 when the minutes field is
0. -/
theorem clipper_duration_at_least_one (durationMin durationSec : Nat)
    (h : clipperAccepted durationMin durationSec = true) :
    clipDuration durationMin durationSec = durationMin * 60 + durationSec ∧
    1 ≤ clipDuration durationMin durationSec ∧
    (durationMin = 0 → 1 ≤ durationSec) := by
  unfold clipperAccepted clipperSecMin at h
  simp only [Bool.and_eq_true, decide_eq_true_eq] at h
  obtain ⟨h1, h2⟩ := h
  refine ⟨rfl, ?_, ?_⟩
  · unfold clipDuration
    by_cases hm : durationMin = 0
    · subst hm
      simp at h1
      omega
    · have : 1 ≤ durationMin := Nat.one_le_iff_ne_zero.mpr hm
      omega
  · intro hm
    subst hm
    simp at h1
    omega

/-- Claim C9 witness: minutes 0, seconds 1 is accepted and yields a
one-second duration. -/
theorem clipper_duration_at_least_one_witness :
    1 ≤ clipDuration 0 1 :=
  (clipper_duration_at_least_one 0 1 (by decide)).2.1

/-- Claim C10: every execution of `WorkerThread.run` emits exactly one
`finished` signal: `(False, "No valid segments found.")` on an empty
extraction without calling `create_highlight_reel`, `(True, output)` on
success, and `(False, str(e))` on an exception. -/
theorem worker_run_single_finished
    (extractResult : Except String (List VideoSegment))
    (create : List VideoSegment → Except String String) :
    (workerRun extractResult create).finished.length = 1 ∧
    (extractResult = Except.ok [] →
      workerRun extractResult create = ⟨[(false, noValidMsg)], false⟩) ∧
    (∀ segs out, extractResult = Except.ok segs → segs ≠ [] →
      create segs = Except.ok out →
      workerRun extractResult create = ⟨[(true, out)], true⟩) ∧
    (∀ segs msg, extractResult = Except.ok segs → segs ≠ [] →
      create segs = Except.error msg →
      workerRun extractResult create = ⟨[(false, msg)], true⟩) ∧
    (∀ msg, extractResult = Except.error msg →
      workerRun extractResult create = ⟨[(false, msg)], false⟩) := by
  refine ⟨?_, ?_, ?_, ?_, ?_⟩
  · cases extractResult with
    | error e => rfl
    | ok segs =>
      by_cases hs : segs.isEmpty
      · simp [workerRun, hs]
      · cases hc : create segs <;> simp [workerRun, hs, hc]
  · intro he
    subst he
    rfl
  · intro segs out he hne hc
    subst he
    have hs : segs.isEmpty = false := by
      cases segs with
      | nil => exact absurd rfl hne
      | cons a l => rfl
    simp [workerRun, hs, hc]
  · intro segs msg he hne hc
    subst he
    have hs : segs.isEmpty = false := by
      cases segs with
      | nil => exact absurd rfl hne
      | cons a l => rfl
    simp [workerRun, hs, hc]
  · intro msg he
    subst he
    rfl

/-- Claim C10 witness: an empty extraction emits exactly the
no-valid-segments failure and never calls the reel creator. -/
theorem worker_run_single_finished_witness :
    workerRun (Except.ok ([] : List VideoSegment)) (fun _ => Except.ok "out") =
      ⟨[(false, noValidMsg)], false⟩ :=
  (worker_run_single_finished (Except.ok []) (fun _ => Except.ok "out")).2.1 rfl

end Reel
